import Mathlib

/-!
Verification of the redmoonAPI streaming-response parsers.

Strings from the Python source are modelled as `List Char`; byte chunks are
modelled as already-decoded character lists (the code decodes each chunk with
UTF-8 before any parsing).  Python's `str.strip`, `str.split`, `str.replace`
and the two line regexes are translated character by character below.
-/

/-- The characters stripped by CPython's `str.strip()`: exactly those with
`str.isspace()` true, i.e. 0x09-0x0D, 0x1C-0x1F, 0x20, U+0085, U+00A0,
U+1680, U+2000-U+200A, U+2028, U+2029, U+202F, U+205F and U+3000. -/
def isPyWs (c : Char) : Bool :=
  [' ', '\t', '\n', '\r', '\x0b', '\x0c', '\x1c', '\x1d', '\x1e', '\x1f',
   '\x85', '\xa0', '\u1680', '\u2000', '\u2001', '\u2002', '\u2003',
   '\u2004', '\u2005', '\u2006', '\u2007', '\u2008', '\u2009', '\u200a',
   '\u2028', '\u2029', '\u202f', '\u205f', '\u3000'].contains c

/-- Python `s.strip()`: drop leading and trailing whitespace. -/
def pyStrip (cs : List Char) : List Char :=
  ((cs.dropWhile isPyWs).reverse.dropWhile isPyWs).reverse

/-- Python `s.strip('"')` as used in `uncovr_client.py`: drop every leading
and every trailing double-quote character. -/
def pyStripQuotes (cs : List Char) : List Char :=
  ((cs.dropWhile (· = '"')).reverse.dropWhile (· = '"')).reverse

/-- Python `s.replace('\\n', '\n')` from `uncovr_client.py` line 162:
replace each two-character sequence backslash-`n` by a newline, scanning
left to right without overlap. -/
def replaceEscNl : List Char → List Char
  | [] => []
  | '\\' :: 'n' :: rest => '\n' :: replaceEscNl rest
  | c :: rest => c :: replaceEscNl rest

/-- Python `s.split('\n')`: split on every newline; `''.split('\n') = ['']`
and a trailing newline yields a trailing empty part. -/
def splitNl : List Char → List (List Char)
  | [] => [[]]
  | c :: rest =>
    if c = '\n' then [] :: splitNl rest
    else
      match splitNl rest with
      | [] => [[c]]
      | h :: t => (c :: h) :: t

/-- Concatenation of a chunk sequence (the full response body). -/
def concatChunks (chunks : List (List Char)) : List Char :=
  chunks.foldr (· ++ ·) []

theorem splitNl_ne_nil (cs : List Char) : splitNl cs ≠ [] := by
  induction cs with
  | nil => simp [splitNl]
  | cons c rest ih =>
    simp only [splitNl]
    split
    · simp
    · cases h : splitNl rest with
      | nil => simp
      | cons h' t => simp

theorem splitNl_no_nl (cs : List Char) :
    ∀ part ∈ splitNl cs, '\n' ∉ part := by
  induction cs with
  | nil => simp [splitNl]
  | cons c rest ih =>
    simp only [splitNl]
    split
    · intro part hp
      rcases List.mem_cons.mp hp with h | h
      · simp [h]
      · exact ih part h
    · rename_i hc
      cases h : splitNl rest with
      | nil => exact absurd h (splitNl_ne_nil rest)
      | cons h' t =>
        intro part hp
        rcases List.mem_cons.mp hp with h2 | h2
        · subst h2
          intro hmem
          rcases List.mem_cons.mp hmem with h3 | h3
          · exact hc h3.symm
          · exact ih h' (h ▸ List.mem_cons_self h' t) h3
        · exact ih part (h ▸ List.mem_cons_of_mem h' h2)

theorem splitNl_of_no_nl {cs : List Char} (h : '\n' ∉ cs) :
    splitNl cs = [cs] := by
  induction cs with
  | nil => rfl
  | cons c rest ih =>
    simp only [List.mem_cons, not_or] at h
    simp only [splitNl]
    rw [if_neg (fun hc => h.1 hc.symm), ih h.2]

/-!
### A model of Python `json.loads`

The parsers call the standard-library `json.loads`.  We model it with an
executable recursive-descent parser for the RFC 8259 grammar as accepted by
Python in strict mode (raw control characters rejected inside strings,
no trailing commas, whitespace tolerated around tokens).  `\uXXXX` string
escapes and the non-standard `NaN`/`Infinity`/`-Infinity` literals that
CPython also accepts are not modelled; no input considered below contains
them.  Numbers keep their lexeme, which is all the client code ever
needs.
-/

inductive Json where
  | null
  | bool (b : Bool)
  | num (lex : List Char)
  | str (s : List Char)
  | arr (items : List Json)
  | obj (kvs : List (List Char × Json))

/-- JSON inter-token whitespace. -/
def isJsonWs (c : Char) : Bool :=
  c = ' ' || c = '\t' || c = '\n' || c = '\r'

def skipWs (cs : List Char) : List Char := cs.dropWhile isJsonWs

/-- Decode a single-character JSON escape. -/
def escDecode (c : Char) : Option Char :=
  if c = '"' then some '"'
  else if c = '\\' then some '\\'
  else if c = '/' then some '/'
  else if c = 'b' then some '\x08'
  else if c = 'f' then some '\x0c'
  else if c = 'n' then some '\n'
  else if c = 'r' then some '\r'
  else if c = 't' then some '\t'
  else none

/-- Parse the body of a JSON string (after the opening quote), returning the
decoded characters and the rest of the input after the closing quote. -/
def parseStrBody : List Char → Option (List Char × List Char)
  | [] => none
  | c :: rest =>
    if c = '"' then some ([], rest)
    else if c = '\\' then
      match rest with
      | [] => none
      | e :: rest2 =>
        match escDecode e with
        | some d =>
          match parseStrBody rest2 with
          | some (s, r) => some (d :: s, r)
          | none => none
        | none => none
    else if c.val < 32 then none
    else
      match parseStrBody rest with
      | some (s, r) => some (c :: s, r)
      | none => none

/-- Parse a JSON number lexeme: `-? int frac? exp?` with no leading zeros. -/
def parseNumLex (cs : List Char) : Option (List Char × List Char) :=
  let (sign, cs1) :=
    match cs with
    | '-' :: r => (['-'], r)
    | _ => (([] : List Char), cs)
  let intDigits := cs1.takeWhile Char.isDigit
  let cs2 := cs1.drop intDigits.length
  if intDigits = [] then none
  else if intDigits.length > 1 && intDigits.headD '0' = '0' then none
  else
    let (fracPart, cs3) :=
      match cs2 with
      | '.' :: r =>
        let d := r.takeWhile Char.isDigit
        if d = [] then (none, cs2) else (some ('.' :: d), r.drop d.length)
      | _ => (none, cs2)
    match fracPart, cs2 with
    | none, '.' :: _ => none
    | _, _ =>
      let (expPart, cs4) :=
        match cs3 with
        | e :: r =>
          if e = 'e' || e = 'E' then
            let (esign, r2) :=
              match r with
              | '+' :: r' => (['+'], r')
              | '-' :: r' => (['-'], r')
              | _ => (([] : List Char), r)
            let d := r2.takeWhile Char.isDigit
            if d = [] then (none, cs3) else (some (e :: esign ++ d), r2.drop d.length)
          else (none, cs3)
        | _ => (none, cs3)
      match expPart, cs3 with
      | none, e :: _ =>
        if e = 'e' || e = 'E' then none
        else some (sign ++ intDigits ++ fracPart.getD [] , cs3)
      | _, _ =>
        some (sign ++ intDigits ++ fracPart.getD [] ++ expPart.getD [], cs4)

mutual

/-- Fuel-indexed JSON value parser; the wrapper `json_loads` supplies ample
fuel, so exhaustion never occurs on the inputs considered. -/
def parseVal : Nat → List Char → Option (Json × List Char)
  | 0, _ => none
  | fuel + 1, cs =>
    match skipWs cs with
    | [] => none
    | c :: rest =>
      if c = 'n' then
        match rest with
        | 'u' :: 'l' :: 'l' :: r => some (.null, r)
        | _ => none
      else if c = 't' then
        match rest with
        | 'r' :: 'u' :: 'e' :: r => some (.bool true, r)
        | _ => none
      else if c = 'f' then
        match rest with
        | 'a' :: 'l' :: 's' :: 'e' :: r => some (.bool false, r)
        | _ => none
      else if c = '"' then
        match parseStrBody rest with
        | some (s, r) => some (.str s, r)
        | none => none
      else if c = '[' then
        match skipWs rest with
        | ']' :: r => some (.arr [], r)
        | cs2 =>
          match parseVal fuel cs2 with
          | some (v, r) => parseArrRest fuel [v] r
          | none => none
      else if c = '\x7b' then
        match skipWs rest with
        | '\x7d' :: r => some (.obj [], r)
        | cs2 => parseObjMember fuel [] cs2
      else if c = '-' || c.isDigit then
        match parseNumLex (c :: rest) with
        | some (lex, r) => some (.num lex, r)
        | none => none
      else none

/-- After one array element: expect `,` and another element, or `]`. -/
def parseArrRest : Nat → List Json → List Char → Option (Json × List Char)
  | 0, _, _ => none
  | fuel + 1, acc, cs =>
    match skipWs cs with
    | ']' :: r => some (.arr acc.reverse, r)
    | ',' :: r =>
      match parseVal fuel r with
      | some (v, r2) => parseArrRest fuel (v :: acc) r2
      | none => none
    | _ => none

/-- One `"key": value` object member followed by `parseObjRest`. -/
def parseObjMember : Nat → List (List Char × Json) → List Char →
    Option (Json × List Char)
  | 0, _, _ => none
  | fuel + 1, acc, cs =>
    match skipWs cs with
    | '"' :: rest =>
      match parseStrBody rest with
      | some (k, r) =>
        match skipWs r with
        | ':' :: r2 =>
          match parseVal fuel r2 with
          | some (v, r3) => parseObjRest fuel ((k, v) :: acc) r3
          | none => none
        | _ => none
      | none => none
    | _ => none

/-- After one object member: expect `,` and another member, or the closing
brace. -/
def parseObjRest : Nat → List (List Char × Json) → List Char →
    Option (Json × List Char)
  | 0, _, _ => none
  | fuel + 1, acc, cs =>
    match skipWs cs with
    | '\x7d' :: r => some (.obj acc.reverse, r)
    | ',' :: r => parseObjMember fuel acc r
    | _ => none

end

/-- Model of Python `json.loads`: parse one value and require that only
whitespace remains; `none` models a raised `json.JSONDecodeError`. -/
def json_loads (cs : List Char) : Option Json :=
  match parseVal (2 * cs.length + 2) cs with
  | some (v, rest) => if skipWs rest = [] then some v else none
  | none => none

/-!
### `utils.parse_stream_line` (src/utils.py lines 13-38)

A parsed line is the dictionary the Python function returns; its `"type"`
field is recovered by `recTypeStr` below.
-/

inductive StreamRec where
  | unknown (text : List Char)
  | json (tag : List Char) (data : Json)
  | text (tag : List Char) (content : List Char)

/-- The `"type"` field of the dictionary returned by `parse_stream_line`. -/
def recTypeStr : StreamRec → List Char
  | .unknown _ => "unknown".toList
  | .json _ _ => "json".toList
  | .text _ _ => "text".toList

/-- The `"prefix"` field, when present. -/
def recTag : StreamRec → Option (List Char)
  | .unknown _ => none
  | .json t _ => some t
  | .text t _ => some t

/-- Model of `re.match(r'^([a-zA-Z0-9]+):(.*)$', line)`: a maximal non-empty
run of ASCII alphanumerics, a colon, then `(.*)$` where `.` cannot cross a
newline and `$` also matches just before a newline that ends the string. -/
def sciraLineMatch (line : List Char) : Option (List Char × List Char) :=
  let tag := line.takeWhile Char.isAlphanum
  match line.drop tag.length with
  | ':' :: content =>
    if tag = [] then none
    else
      let content' := if content.getLast? = some '\n' then content.dropLast else content
      if '\n' ∈ content' then none else some (tag, content')
  | _ => none

/-- `utils.parse_stream_line`: `None` for empty / whitespace-only lines,
`unknown` for lines without a tag, otherwise `json` or `text` depending on
whether the content after the colon parses with `json.loads`. -/
def parse_stream_line (line : List Char) : Option StreamRec :=
  if line = [] || pyStrip line = [] then none
  else
    match sciraLineMatch line with
    | none => some (.unknown line)
    | some (tag, content) =>
      match json_loads content with
      | some d => some (.json tag d)
      | none => some (.text tag content)

/-!
### `utils.process_stream` (src/utils.py lines 41-68)

The inner `while '\n' in buffer` loop is `drainStep` below, written with
explicit fuel; one iteration consumes one newline of the buffer, so
`count '\n' + 1` units of fuel always suffice (`drainBuffer`).
-/

/-- One run of the `while '\n' in buffer:` loop: split off complete lines,
yield the parsed ones, and return the remaining (newline-free) buffer. -/
def drainStep : Nat → List Char → List StreamRec × List Char
  | 0, buf => ([], buf)
  | fuel + 1, buf =>
    if '\n' ∈ buf then
      let line := buf.takeWhile (· ≠ '\n')
      let rest := (buf.dropWhile (· ≠ '\n')).tail
      let (out, fin) := drainStep fuel rest
      (match parse_stream_line line with
       | some r => r :: out
       | none => out, fin)
    else ([], buf)

def drainBuffer (buf : List Char) : List StreamRec × List Char :=
  drainStep (buf.count '\n' + 1) buf

/-- `process_stream`, folded over the chunk list with the carried buffer;
returns the yielded records and the final (dropped) buffer contents.
Empty chunks are skipped by the `if not chunk: continue` guard. -/
def processStreamAux : List Char → List (List Char) → List StreamRec × List Char
  | buf, [] => ([], buf)
  | buf, chunk :: rest =>
    if chunk = [] then processStreamAux buf rest
    else
      let (out1, buf') := drainBuffer (buf ++ chunk)
      let (out2, bufF) := processStreamAux buf' rest
      (out1 ++ out2, bufF)

/-- The sequence of records yielded by `utils.process_stream` on a chunk
sequence (each chunk already UTF-8 decoded). -/
def process_stream (chunks : List (List Char)) : List StreamRec :=
  (processStreamAux [] chunks).1

def parsedLines (parts : List (List Char)) : List StreamRec :=
  parts.filterMap parse_stream_line

/-!
### Characterization of `process_stream`

`process_stream` behaves like: concatenate all chunks, split on `'\n'`,
parse every part except the final (unterminated) one.
-/

/-- The final part of the newline split: what remains in the buffer. -/
def lastPart (cs : List Char) : List Char := (splitNl cs).getLastD []

theorem getLastD_mem_cons {α : Type} (t : List α) (p d : α) :
    (p :: t).getLastD d ∈ p :: t := by
  induction t generalizing p with
  | nil => simp [List.getLastD]
  | cons q t' ih =>
    rw [List.getLastD_cons]
    exact List.mem_cons_of_mem p (ih q)

theorem lastPart_no_nl (cs : List Char) : '\n' ∉ lastPart cs := by
  unfold lastPart
  cases h : splitNl cs with
  | nil => exact absurd h (splitNl_ne_nil cs)
  | cons p t =>
    exact splitNl_no_nl cs _ (h ▸ getLastD_mem_cons t p [])

theorem splitNl_cons_of_mem {buf : List Char} (h : '\n' ∈ buf) :
    splitNl buf =
      buf.takeWhile (· ≠ '\n') :: splitNl ((buf.dropWhile (· ≠ '\n')).tail) := by
  induction buf with
  | nil => simp at h
  | cons c rest ih =>
    by_cases hc : c = '\n'
    · subst hc
      simp [splitNl, List.takeWhile, List.dropWhile]
    · have hmem : '\n' ∈ rest := by
        rcases List.mem_cons.mp h with h1 | h1
        · exact absurd h1.symm hc
        · exact h1
      have hne : (c = '\n') = False := by simp [hc]
      simp only [splitNl, if_neg hc, List.takeWhile, List.dropWhile]
      rw [ih hmem]
      simp [hc]

theorem count_nl_tail_dropWhile {buf : List Char} (h : '\n' ∈ buf) :
    ((buf.dropWhile (· ≠ '\n')).tail).count '\n' + 1 = buf.count '\n' := by
  induction buf with
  | nil => simp at h
  | cons c rest ih =>
    by_cases hc : c = '\n'
    · subst hc
      simp [List.dropWhile, List.count_cons]
    · have hmem : '\n' ∈ rest := by
        rcases List.mem_cons.mp h with h1 | h1
        · exact absurd h1.symm hc
        · exact h1
      simp only [List.dropWhile, List.count_cons]
      rw [if_neg (by simp [hc])]
      have : (decide ¬c = '\n') = true := by simp [hc]
      rw [this]
      simp only [cond_true]
      rw [ih hmem]
      simp [hc]

theorem drainStep_eq {fuel : Nat} :
    ∀ {buf : List Char}, buf.count '\n' < fuel →
      drainStep fuel buf =
        (parsedLines (splitNl buf).dropLast, lastPart buf) := by
  induction fuel with
  | zero => intro buf h; omega
  | succ n ih =>
    intro buf h
    by_cases hmem : '\n' ∈ buf
    · have hcount : ((buf.dropWhile (· ≠ '\n')).tail).count '\n' < n := by
        have := count_nl_tail_dropWhile hmem
        omega
      have hne := splitNl_ne_nil ((buf.dropWhile (· ≠ '\n')).tail)
      simp only [drainStep, if_pos hmem, ih hcount]
      unfold parsedLines lastPart
      rw [splitNl_cons_of_mem hmem]
      rw [List.dropLast_cons_of_ne_nil hne, List.getLastD_cons, List.filterMap_cons]
      rw [List.getLastD_eq_getLast?, List.getLastD_eq_getLast?]
      cases hlast : (splitNl ((buf.dropWhile (· ≠ '\n')).tail)).getLast? with
      | none =>
        exact absurd (List.getLast?_eq_none_iff.mp hlast) hne
      | some x =>
        cases parse_stream_line (buf.takeWhile (· ≠ '\n')) <;> rfl
    · simp only [drainStep, if_neg hmem]
      unfold parsedLines lastPart
      rw [splitNl_of_no_nl hmem]
      simp

theorem drainBuffer_eq (buf : List Char) :
    drainBuffer buf = (parsedLines (splitNl buf).dropLast, lastPart buf) :=
  drainStep_eq (Nat.lt_succ_self _)

theorem splitNl_cons_nl (l : List Char) : splitNl ('\n' :: l) = [] :: splitNl l := by
  simp [splitNl]

theorem splitNl_cons_ne {c : Char} (hc : c ≠ '\n') (l : List Char) :
    splitNl (c :: l) = (c :: (splitNl l).headD []) :: (splitNl l).tail := by
  cases h : splitNl l with
  | nil => exact absurd h (splitNl_ne_nil l)
  | cons p t => simp [splitNl, hc, h]

theorem getLastD_irrel {α : Type} {l : List α} (h : l ≠ []) (d d' : α) :
    l.getLastD d = l.getLastD d' := by
  rw [List.getLastD_eq_getLast?, List.getLastD_eq_getLast?]
  cases hl : l.getLast? with
  | none => exact absurd (List.getLast?_eq_none_iff.mp hl) h
  | some x => rfl

theorem splitNl_append (a b : List Char) :
    splitNl (a ++ b) =
      (splitNl a).dropLast ++
        ((splitNl a).getLastD [] ++ (splitNl b).headD []) :: (splitNl b).tail := by
  induction a with
  | nil =>
    cases h : splitNl b with
    | nil => exact absurd h (splitNl_ne_nil b)
    | cons p t => simp [splitNl, List.getLastD, h]
  | cons c a' ih =>
    by_cases hc : c = '\n'
    · subst hc
      have hne := splitNl_ne_nil a'
      rw [List.cons_append, splitNl_cons_nl, splitNl_cons_nl, ih]
      rw [List.dropLast_cons_of_ne_nil hne, List.getLastD_cons]
      rw [getLastD_irrel hne ([] : List Char) []]
      simp
    · rw [List.cons_append, splitNl_cons_ne hc, splitNl_cons_ne hc, ih]
      cases hsa : splitNl a' with
      | nil => exact absurd hsa (splitNl_ne_nil a')
      | cons p t =>
        cases t with
        | nil => simp [List.getLastD]
        | cons q t' =>
          have hne : q :: t' ≠ [] := by simp
          simp only [List.headD_cons, List.tail_cons]
          rw [List.dropLast_cons_of_ne_nil hne]
          simp [List.getLastD_cons]

theorem parsedLines_append (u v : List (List Char)) :
    parsedLines (u ++ v) = parsedLines u ++ parsedLines v :=
  List.filterMap_append u v parse_stream_line

theorem processStreamAux_eq (chunks : List (List Char)) :
    ∀ buf : List Char, '\n' ∉ buf →
      processStreamAux buf chunks =
        (parsedLines (splitNl (buf ++ concatChunks chunks)).dropLast,
          lastPart (buf ++ concatChunks chunks)) := by
  induction chunks with
  | nil =>
    intro buf hbuf
    simp only [processStreamAux, concatChunks, List.foldr_nil, List.append_nil]
    rw [splitNl_of_no_nl hbuf]
    simp [parsedLines, lastPart, splitNl_of_no_nl hbuf, List.getLastD]
  | cons chunk rest ih =>
    intro buf hbuf
    have e0 : buf ++ concatChunks (chunk :: rest) = (buf ++ chunk) ++ concatChunks rest := by
      simp [concatChunks]
    have hL : '\n' ∉ lastPart (buf ++ chunk) := lastPart_no_nl (buf ++ chunk)
    cases hTs : splitNl (concatChunks rest) with
    | nil => exact absurd hTs (splitNl_ne_nil _)
    | cons hT0 tT =>
      have e1 : splitNl ((buf ++ chunk) ++ concatChunks rest) =
          (splitNl (buf ++ chunk)).dropLast ++
            ((splitNl (buf ++ chunk)).getLastD [] ++ hT0) :: tT := by
        rw [splitNl_append, hTs]
        simp [List.headD_cons, List.tail_cons]
      have e2 : splitNl ((splitNl (buf ++ chunk)).getLastD [] ++ concatChunks rest) =
          ((splitNl (buf ++ chunk)).getLastD [] ++ hT0) :: tT := by
        rw [splitNl_append,
          splitNl_of_no_nl
            (show '\n' ∉ (splitNl (buf ++ chunk)).getLastD [] from lastPart_no_nl (buf ++ chunk)),
          hTs]
        simp [List.getLastD]
      by_cases hch : chunk = []
      · subst hch
        simp only [processStreamAux, if_pos rfl]
        rw [ih buf hbuf]
        simp [concatChunks]
      · simp only [processStreamAux, if_neg hch]
        rw [drainBuffer_eq]
        dsimp only
        rw [ih _ hL]
        dsimp only
        simp only [Prod.mk.injEq]
        unfold lastPart
        rw [e0, e1, e2]
        refine ⟨?_, ?_⟩
        · rw [List.dropLast_append_of_ne_nil _ (by simp), parsedLines_append]
        · symm
          rw [List.getLastD_eq_getLast?,
            List.getLast?_append_of_ne_nil _ (List.cons_ne_nil _ _),
            ← List.getLastD_eq_getLast?]

/-- `process_stream` parses exactly the newline-terminated lines of the
concatenated body, in order. -/
theorem process_stream_eq (chunks : List (List Char)) :
    process_stream chunks = parsedLines (splitNl (concatChunks chunks)).dropLast := by
  unfold process_stream
  rw [processStreamAux_eq chunks [] (by simp)]
  rw [List.nil_append]

theorem process_stream_leftover (chunks : List (List Char)) :
    (processStreamAux [] chunks).2 = lastPart (concatChunks chunks) := by
  rw [processStreamAux_eq chunks [] (by simp)]
  rw [List.nil_append]

/-!
### `UncovrClient.send_message` chunk parsing (src/uncovr_client.py 143-183)

Each received chunk is decoded and split on `'\n'` on its own — there is no
carry-over buffer between chunks.  Each line is classified by the loop body:
blank lines are skipped, lines matching `^(\d+):(.*)$` are dispatched on the
digit tag (tag `0` appends to `text_response`; tag `2` and other tags only
touch debug output / metadata, never the text), and non-matching lines fall
through with no effect.  We model the classification and the `text_response`
accumulation; `full_response`, the debug prints and the debug-only metadata
dictionary never influence the `text` field and are not needed below.
-/

/-- Model of `re.match(r'^(\d+):(.*)$', line)` from uncovr_client.py 154. -/
def uncovrLineMatch (line : List Char) : Option (List Char × List Char) :=
  let tag := line.takeWhile Char.isDigit
  match line.drop tag.length with
  | ':' :: content =>
    if tag = [] then none
    else
      let content' := if content.getLast? = some '\n' then content.dropLast else content
      if '\n' ∈ content' then none else some (tag, content')
  | _ => none

/-- What the loop body of `send_message` does with one line. -/
inductive UAction where
  | blank
  | text (frag : List Char)
  | metadata (content : List Char)
  | other (tag content : List Char)
  | unmatched

/-- The loop body of `send_message` (uncovr_client.py 149-181) for one line:
`strip` skip, digit-tag match, then dispatch on the tag. -/
def uncovrLineAct (line : List Char) : UAction :=
  if pyStrip line = [] then .blank
  else
    match uncovrLineMatch line with
    | none => .unmatched
    | some (tag, content) =>
      if tag = ['0'] then .text (replaceEscNl (pyStripQuotes content))
      else if tag = ['2'] then .metadata content
      else .other tag content

/-- The text fragment a line contributes to `text_response` (if any). -/
def uncovrLineFrag (line : List Char) : Option (List Char) :=
  match uncovrLineAct line with
  | .text frag => some frag
  | _ => none

/-- `text_response` contribution of one chunk: the loop over
`chunk_text.split('\n')`. -/
def uncovrChunkText (chunk : List Char) : List Char :=
  ((splitNl chunk).map (fun l => (uncovrLineFrag l).getD [])).foldr (· ++ ·) []

/-- The final `text_response` accumulated by `send_message` over the chunk
sequence (the `if chunk:` guard skips empty chunks). -/
def uncovrSendText (chunks : List (List Char)) : List Char :=
  chunks.foldl (fun acc chunk => if chunk = [] then acc else acc ++ uncovrChunkText chunk) []

/-!
### `SciraAPI.search` retry loop (src/api.py 74-116)

`SciraAPI.search` and `SciraAPI.search_with_history` contain the identical
retry loop (api.py 74-116 and 167-209); one model covers both.  An attempt
either completes with a status code or raises `requests.RequestException`
(`HttpAttempt.exn`); both the attempt oracle and the cookie-refresh oracle
are indexed by the value of the `retries` counter, which increases exactly
once per loop iteration.  The `resp` argument tracks the Python local
`response`: `none` while it has never been assigned.  After the loop the
code evaluates `response.status_code`; with `resp = none` that raises
`UnboundLocalError`, modelled by `SearchOutcome.crash`.  The fuel is the
number of loop iterations still allowed, `max_retries + 1 - retries`.
-/

inductive HttpAttempt where
  | status (code : Nat)
  | exn

inductive SearchOutcome where
  | stream
  | gaveUp
  | crash
deriving DecidableEq

def sciraSearchLoop (att : Nat → HttpAttempt) (refreshOk : Nat → Bool) :
    Nat → Nat → Option Nat → SearchOutcome
  | 0, _, resp =>
    match resp with
    | none => .crash
    | some c => if c = 200 then .stream else .gaveUp
  | fuel + 1, retries, resp =>
    match att retries with
    | .exn => sciraSearchLoop att refreshOk fuel (retries + 1) resp
    | .status code =>
      if code = 200 then .stream
      else if code = 401 || code = 403 then
        if refreshOk retries then sciraSearchLoop att refreshOk fuel (retries + 1) (some code)
        else .gaveUp
      else .gaveUp

/-- `SciraAPI.search` / `search_with_history` with `max_retries = 3`
(api.py line 31): the loop runs while `retries <= max_retries`. -/
def sciraSearch (att : Nat → HttpAttempt) (refreshOk : Nat → Bool) : SearchOutcome :=
  sciraSearchLoop att refreshOk 4 0 none

/-!
### `ZaiClient._parse_sse_response` line selection (src/zai_client.py 121-133)

`lines = [line.strip() for line in response_text.split('\n')
          if line.strip().startswith('data:')]`, and each of the three
passes over `lines` parses `json.loads(line[6:])`.
-/

/-- The `lines` list of `_parse_sse_response`. -/
def zaiSseLines (text : List Char) : List (List Char) :=
  ((splitNl text).filter (fun l => "data:".toList.isPrefixOf (pyStrip l))).map pyStrip

/-- The strings handed to `json.loads` by every pass of
`_parse_sse_response` (`line[6:]` on each selected, stripped line). -/
def zaiJsonInputs (text : List Char) : List (List Char) :=
  (zaiSseLines text).map (List.drop 6)

/-!
### `format_response_json` (src/blackbox_request.py 197-256)

The whole function is embedded.  Python values that can appear in the
result dictionary are `Json` values (strings as `Json.str`).  The two
`except` branches both produce an f-string error message whose exact text
depends on the exception; they are abstracted as the dedicated
constructors `invalidFormat` (the literal `'Error: Invalid response
format'` dictionary) and `processingError` (`'Error processing response:
...'`).
-/

/-- Python substring test `pat in s` for strings. -/
def listHasSub (pat : List Char) : List Char → Bool
  | [] => pat.isEmpty
  | c :: rest => pat.isPrefixOf (c :: rest) || listHasSub pat rest

/-- Python truthiness of a decoded JSON value (used for
`response_data["webSearch"]` in the `if`).  A number is falsy iff its
mantissa digits are all zero; lexemes whose float value underflows to
`0.0` (such as `1e-999`) are modelled truthy, a divergence no statement
below depends on. -/
def jTruthy : Json → Bool
  | .null => false
  | .bool b => b
  | .num lex =>
    !(lex.takeWhile (fun c => c ≠ 'e' ∧ c ≠ 'E')).all
      (fun c => !('1' ≤ c ∧ c ≤ '9'))
  | .str s => !s.isEmpty
  | .arr items => !items.isEmpty
  | .obj kvs => !kvs.isEmpty

def isObjJson : Json → Bool
  | .obj _ => true
  | _ => false

/-- Python `dict.get(key, default)` on a dict decoded from JSON
(duplicate keys: the last occurrence wins). -/
def objGet (kvs : List (List Char × Json)) (k : List Char) (d : Json) : Json :=
  (((kvs.filter (fun kv => kv.1 = k)).map (fun kv => kv.2)).getLast?).getD d

/-- A formatted web-search entry: the `title`, `url` and `snippet` values. -/
def entryFromStd (o : Json) : Json × Json × Json :=
  match o with
  | .obj kvs =>
    (objGet kvs "title".toList (.str "No Title".toList),
     objGet kvs "url".toList (.str "No URL".toList),
     objGet kvs "snippet".toList (.str "No snippet available".toList))
  | _ => (.null, .null, .null)

/-- A formatted web-search entry in the `$~~~$` fallback path: the `link`
key becomes the `url` field (blackbox_request.py 240-247). -/
def entryFromMarker (o : Json) : Json × Json × Json :=
  match o with
  | .obj kvs =>
    (objGet kvs "title".toList (.str "No Title".toList),
     objGet kvs "link".toList (.str "No URL".toList),
     objGet kvs "snippet".toList (.str "No snippet available".toList))
  | _ => (.null, .null, .null)

/-- The dictionary returned by `format_response_json`. -/
inductive FormatResp where
  | ok (response : Json) (webSearch : List (Json × Json × Json))
  | invalidFormat
  | processingError

/-- Iterating Python-style over a decoded JSON value inside the
`webSearch` list comprehensions: a list of objects iterates cleanly, the
empty dict iterates zero times, and everything else truthy raises inside
the comprehension (`AttributeError` / `TypeError`), landing in the
enclosing `except`. -/
def comprehensionOver (v : Json) (entry : Json → Json × Json × Json) :
    Option (List (Json × Json × Json)) :=
  match v with
  | .arr items => if items.all isObjJson then some (items.map entry) else none
  | .obj [] => some []
  | _ => none

def markerChars : List Char := "$~~~$".toList

/-- Scan for the lazy `(.*?)` middle of `re.search(r'\$~~~\$(.*?)\$~~~\$')`
starting right after an opening marker: the shortest run of non-newline
characters followed by another marker. -/
def scanSegEnd : Nat → List Char → Option (List Char)
  | 0, _ => none
  | fuel + 1, cs =>
    if markerChars.isPrefixOf cs then some []
    else
      match cs with
      | [] => none
      | c :: rest =>
        if c = '\n' then none
        else
          match scanSegEnd fuel rest with
          | some mid => some (c :: mid)
          | none => none

/-- `re.search(r'\$~~~\$(.*?)\$~~~\$', text)`: the leftmost start position
admitting a match, with the lazily shortest group. Returns `group(1)`. -/
def reSearchMarkers : List Char → Option (List Char)
  | [] => none
  | c :: rest =>
    if markerChars.isPrefixOf (c :: rest) then
      match scanSegEnd (rest.length + 1) ((c :: rest).drop 5) with
      | some mid => some mid
      | none => reSearchMarkers rest
    else reSearchMarkers rest

/-- Python `text.split('$~~~$')`: non-overlapping left-to-right split. -/
def splitMarkerFuel : Nat → List Char → List (List Char)
  | 0, cs => [cs]
  | fuel + 1, cs =>
    if markerChars.isPrefixOf cs then [] :: splitMarkerFuel fuel (cs.drop 5)
    else
      match cs with
      | [] => [[]]
      | c :: rest =>
        match splitMarkerFuel fuel rest with
        | [] => [[c]]
        | h :: t => (c :: h) :: t

def pySplitMarker (cs : List Char) : List (List Char) :=
  splitMarkerFuel (cs.length + 1) cs

/-- The `except json.JSONDecodeError` fallback of `format_response_json`
(blackbox_request.py 222-253). -/
def formatRespFallback (text : List Char) : FormatResp :=
  match reSearchMarkers text with
  | none => .ok (.str text) []
  | some seg =>
    match json_loads seg with
    | none => .processingError
    | some v =>
      let parts := pySplitMarker text
      let mainText : List Char :=
        if parts.length > 2 then pyStrip (parts.getD 2 [])
        else "No response text found.".toList
      match comprehensionOver v entryFromMarker with
      | some entries => .ok (.str mainText) entries
      | none => .processingError

/-- The standard-JSON path of `format_response_json`
(blackbox_request.py 199-220), given the decoded body. -/
def formatRespStd (j : Json) : FormatResp :=
  match j with
  | .obj kvs =>
    match objGet kvs "response".toList .null, kvs.any (fun kv => kv.1 = "response".toList) with
    | _, false => .invalidFormat
    | result, true =>
      match kvs.any (fun kv => kv.1 = "webSearch".toList), objGet kvs "webSearch".toList .null with
      | false, _ => .ok result []
      | true, ws =>
        if jTruthy ws then
          match comprehensionOver ws entryFromStd with
          | some entries => .ok result entries
          | none => .processingError
        else .ok result []
  | .arr items =>
    if items.any (fun it =>
        match it with
        | .str s => s = "response".toList
        | _ => false) then .processingError
    else .invalidFormat
  | .str s => if listHasSub "response".toList s then .processingError else .invalidFormat
  | _ => .processingError

/-- `format_response_json` (blackbox_request.py 197-256). -/
def format_response_json (text : List Char) : FormatResp :=
  match json_loads text with
  | some j => formatRespStd j
  | none => formatRespFallback text

/-!
### Supporting lemmas about the string helpers
-/

theorem concatChunks_append (u v : List (List Char)) :
    concatChunks (u ++ v) = concatChunks u ++ concatChunks v := by
  induction u with
  | nil => simp [concatChunks]
  | cons x u' ih => simp [concatChunks] at ih ⊢; rw [ih]

theorem pyStrip_eq_nil_iff (l : List Char) :
    pyStrip l = [] ↔ ∀ c ∈ l, isPyWs c = true := by
  unfold pyStrip
  rw [List.reverse_eq_nil_iff, List.dropWhile_eq_nil_iff]
  constructor
  · intro h c hc
    by_cases hdrop : c ∈ l.dropWhile isPyWs
    · exact h c (List.mem_reverse.mpr hdrop)
    · rcases (List.mem_append.mp
        ((List.takeWhile_append_dropWhile isPyWs l) ▸ hc)) with h2 | h2
      · exact List.mem_takeWhile_imp h2
      · exact absurd h2 hdrop
  · intro h c hc
    exact h c ((List.dropWhile_sublist isPyWs).subset (List.mem_reverse.mp hc))

theorem takeWhile_nonempty_head {p : Char → Bool} {l : List Char}
    (h : l.takeWhile p ≠ []) : ∃ c ∈ l, p c = true := by
  cases l with
  | nil => simp [List.takeWhile] at h
  | cons c rest =>
    by_cases hc : p c
    · exact ⟨c, List.mem_cons_self c rest, hc⟩
    · simp [List.takeWhile, hc] at h

theorem digit_not_ws {c : Char} (h : c.isDigit = true) : isPyWs c = false := by
  by_contra hw
  rw [Bool.not_eq_false] at hw
  rw [isPyWs, List.elem_iff] at hw
  simp only [List.mem_cons, List.mem_singleton, List.not_mem_nil, or_false] at hw
  rcases hw with rfl | rfl | rfl | rfl | rfl | rfl | rfl | rfl | rfl | rfl | rfl | rfl | rfl | rfl | rfl | rfl | rfl | rfl | rfl | rfl | rfl | rfl | rfl | rfl | rfl | rfl | rfl | rfl | rfl <;> exact absurd h (by decide)

theorem alnum_not_ws {c : Char} (h : c.isAlphanum = true) : isPyWs c = false := by
  by_contra hw
  rw [Bool.not_eq_false] at hw
  rw [isPyWs, List.elem_iff] at hw
  simp only [List.mem_cons, List.mem_singleton, List.not_mem_nil, or_false] at hw
  rcases hw with rfl | rfl | rfl | rfl | rfl | rfl | rfl | rfl | rfl | rfl | rfl | rfl | rfl | rfl | rfl | rfl | rfl | rfl | rfl | rfl | rfl | rfl | rfl | rfl | rfl | rfl | rfl | rfl | rfl <;> exact absurd h (by decide)

theorem strip_ne_nil_of_mem {l : List Char} {c : Char}
    (hc : c ∈ l) (hw : isPyWs c = false) : pyStrip l ≠ [] := by
  intro h
  rw [pyStrip_eq_nil_iff] at h
  rw [h c hc] at hw
  exact Bool.noConfusion hw

theorem takeWhile_all_append {p : Char → Bool} {u : List Char}
    (hu : ∀ c ∈ u, p c = true) {c : Char} (hc : p c = false) (v : List Char) :
    (u ++ c :: v).takeWhile p = u := by
  induction u with
  | nil => simp [List.takeWhile, hc]
  | cons a u' ih =>
    have ha := hu a (List.mem_cons_self a u')
    simp only [List.cons_append, List.takeWhile, ha]
    show a :: List.takeWhile p (u' ++ c :: v) = a :: u'
    rw [ih (fun x hx => hu x (List.mem_cons_of_mem a hx))]

/-!
### Lemmas about the Uncovr loop body
-/

theorem uncovrLineMatch_some_shape {l tag content : List Char}
    (h : uncovrLineMatch l = some (tag, content)) :
    tag = l.takeWhile Char.isDigit ∧ tag ≠ [] := by
  simp only [uncovrLineMatch] at h
  split at h
  · rename_i rcontent heq
    by_cases hnil : l.takeWhile Char.isDigit = []
    · rw [if_pos hnil] at h
      exact absurd h (by simp)
    · rw [if_neg hnil] at h
      by_cases hmem :
          '\n' ∈ (if rcontent.getLast? = some '\n' then rcontent.dropLast else rcontent)
      · rw [if_pos hmem] at h
        exact absurd h (by simp)
      · rw [if_neg hmem] at h
        injection h with h2
        injection h2 with h3 h4
        exact ⟨h3.symm, h3 ▸ hnil⟩
  · exact absurd h (by simp)

theorem uncovrLineMatch_blank {l : List Char} (hb : pyStrip l = []) :
    uncovrLineMatch l = none := by
  cases h : uncovrLineMatch l with
  | none => rfl
  | some p =>
    obtain ⟨tag, content⟩ := p
    obtain ⟨h1, h2⟩ := uncovrLineMatch_some_shape h
    obtain ⟨c, hc, hdig⟩ := takeWhile_nonempty_head (h1 ▸ h2)
    exact absurd hb (strip_ne_nil_of_mem hc (digit_not_ws hdig))

/-- On every line, the fragment added to `text_response` is exactly the
strip-quotes-then-replace-escapes transform of the content of a `0:` tag. -/
theorem uncovrLineFrag_eq (l : List Char) :
    uncovrLineFrag l =
      match uncovrLineMatch l with
      | some (tag, content) =>
        if tag = ['0'] then some (replaceEscNl (pyStripQuotes content)) else none
      | none => none := by
  unfold uncovrLineFrag uncovrLineAct
  by_cases hb : pyStrip l = []
  · rw [if_pos hb, uncovrLineMatch_blank hb]
  · rw [if_neg hb]
    cases hm : uncovrLineMatch l with
    | none => rfl
    | some p =>
      obtain ⟨tag, content⟩ := p
      by_cases h0 : tag = ['0']
      · simp [h0]
      · by_cases h2 : tag = ['2'] <;> simp [h0, h2]

theorem uncovrChunkText_eq (chunk : List Char) :
    uncovrChunkText chunk = concatChunks ((splitNl chunk).filterMap uncovrLineFrag) := by
  unfold uncovrChunkText
  induction splitNl chunk with
  | nil => rfl
  | cons l ls ih =>
    simp only [List.map_cons, List.foldr_cons, List.filterMap_cons]
    cases hf : uncovrLineFrag l with
    | none => simp [ih]
    | some frag => simp [concatChunks, ih]

theorem uncovrSendText_go (chunks : List (List Char)) :
    ∀ acc : List Char,
      chunks.foldl
        (fun acc chunk => if chunk = [] then acc else acc ++ uncovrChunkText chunk) acc =
      acc ++ concatChunks (chunks.map uncovrChunkText) := by
  induction chunks with
  | nil => intro acc; simp [concatChunks]
  | cons chunk rest ih =>
    intro acc
    simp only [List.foldl_cons, List.map_cons]
    by_cases hch : chunk = []
    · subst hch
      rw [if_pos rfl, ih acc]
      have : uncovrChunkText [] = [] := rfl
      simp [concatChunks, this]
    · rw [if_neg hch, ih (acc ++ uncovrChunkText chunk)]
      simp [concatChunks, List.append_assoc]

theorem filterMap_flatMap_split (chunks : List (List Char)) :
    concatChunks (chunks.map uncovrChunkText) =
      concatChunks ((chunks.flatMap splitNl).filterMap uncovrLineFrag) := by
  induction chunks with
  | nil => rfl
  | cons chunk rest ih =>
    simp only [List.map_cons, List.flatMap_cons, List.filterMap_append]
    have : concatChunks (uncovrChunkText chunk :: rest.map uncovrChunkText) =
        uncovrChunkText chunk ++ concatChunks (rest.map uncovrChunkText) := rfl
    rw [this, concatChunks_append, uncovrChunkText_eq, ih]

theorem getLast?_nl_mem {content : List Char} (hnl : '\n' ∉ content) :
    content.getLast? ≠ some '\n' := by
  intro hg
  obtain ⟨ys, hys⟩ := List.getLast?_eq_some_iff.mp hg
  exact hnl (hys ▸ (by simp))

theorem sciraLineMatch_construct {tag content : List Char}
    (htag : tag ≠ []) (halnum : ∀ c ∈ tag, c.isAlphanum = true)
    (hnl : '\n' ∉ content) :
    sciraLineMatch (tag ++ ':' :: content) = some (tag, content) := by
  have hcolon : Char.isAlphanum ':' = false := by decide
  have htake : (tag ++ ':' :: content).takeWhile Char.isAlphanum = tag :=
    takeWhile_all_append halnum hcolon content
  simp only [sciraLineMatch, htake, List.drop_left]
  rw [if_neg htag, if_neg (getLast?_nl_mem hnl), if_neg hnl]

theorem uncovrLineMatch_construct {tag content : List Char}
    (htag : tag ≠ []) (hdig : ∀ c ∈ tag, c.isDigit = true)
    (hnl : '\n' ∉ content) :
    uncovrLineMatch (tag ++ ':' :: content) = some (tag, content) := by
  have hcolon : Char.isDigit ':' = false := by decide
  have htake : (tag ++ ':' :: content).takeWhile Char.isDigit = tag :=
    takeWhile_all_append hdig hcolon content
  simp only [uncovrLineMatch, htake, List.drop_left]
  rw [if_neg htag, if_neg (getLast?_nl_mem hnl), if_neg hnl]

/-!
### Claim theorems
-/

/-- C1 (amended): for every way of splitting a response body into chunks,
`process_stream` yields the same records as single-chunk delivery.  (The
Uncovr loop does not share this property; see the counterexample.) -/
theorem c1_scira_chunk_invariance (chunks : List (List Char)) :
    process_stream chunks = process_stream [concatChunks chunks] := by
  rw [process_stream_eq, process_stream_eq]
  have : concatChunks [concatChunks chunks] = concatChunks chunks := by
    simp [concatChunks]
  rw [this]

/-- C1 counterexample: the two chunkings concatenate to the same body and
all chunks are non-empty, yet the Uncovr `send_message` loop accumulates a
different final `text` value, because the line `0:"ab"` straddles the
chunk boundary and each fragment is parsed on its own. -/
theorem c1_counterexample :
    concatChunks ["0:\"a".toList, "b\"".toList] = concatChunks ["0:\"ab\"".toList] ∧
    "0:\"a".toList ≠ ([] : List Char) ∧ "b\"".toList ≠ ([] : List Char) ∧
    uncovrSendText ["0:\"ab\"".toList] = "ab".toList ∧
    uncovrSendText ["0:\"a".toList, "b\"".toList] = "a".toList ∧
    "ab".toList ≠ "a".toList :=
  ⟨rfl, by decide, by decide, rfl, rfl, by decide⟩

/-- C2 (amended): `process_stream` yields exactly the non-`None`
`parse_stream_line` results of the newline-split of the concatenated body,
excluding the final (unterminated) part of the split. -/
theorem c2_process_stream_characterization (chunks : List (List Char)) :
    process_stream chunks =
      ((splitNl (concatChunks chunks)).dropLast).filterMap parse_stream_line :=
  process_stream_eq chunks

/-- C2 counterexample: for the single chunk `"x"` the claim as stated
requires the record for the (unterminated) final line `x`, but
`process_stream` yields nothing. -/
theorem c2_counterexample :
    process_stream ["x".toList] = [] ∧
    (splitNl (concatChunks ["x".toList])).filterMap parse_stream_line =
      [StreamRec.unknown "x".toList] ∧
    ([] : List StreamRec) ≠ [StreamRec.unknown "x".toList] :=
  ⟨rfl, rfl, by simp⟩

/-- C8: writing the concatenated body as `p ++ t` with `t` the
(newline-free) text after the last newline, `process_stream` yields
exactly what it would yield on `p` alone, and `t` stays in the final
buffer, which is dropped when the input ends. -/
theorem c8_trailing_dropped (chunks : List (List Char)) (p t : List Char)
    (hsplit : concatChunks chunks = p ++ t) (hnl : '\n' ∉ t) :
    process_stream chunks = process_stream [p] ∧
    t <:+ (processStreamAux [] chunks).2 := by
  have hsp : splitNl (p ++ t) =
      (splitNl p).dropLast ++ [(splitNl p).getLastD [] ++ t] := by
    rw [splitNl_append, splitNl_of_no_nl hnl]
    simp [List.getLastD]
  constructor
  · rw [process_stream_eq, process_stream_eq, hsplit, hsp]
    have hcp : concatChunks [p] = p := by simp [concatChunks]
    rw [hcp, List.dropLast_concat]
  · rw [process_stream_leftover, hsplit]
    unfold lastPart
    rw [hsp, List.getLastD_eq_getLast?,
      List.getLast?_append_of_ne_nil _ (by simp)]
    simp only [List.getLast?_singleton, Option.getD_some]
    exact List.suffix_append _ t

/-- C8 witness at a concrete stream: `"a\nb" ++ "c"` has trailing text
`bc` after the last newline; the records equal those of `"a\n"` alone and
`bc` remains in the dropped buffer. -/
theorem c8_trailing_dropped_witness :
    process_stream ["a\nb".toList, "c".toList] = process_stream ["a\n".toList] ∧
    "bc".toList <:+ (processStreamAux [] ["a\nb".toList, "c".toList]).2 :=
  c8_trailing_dropped ["a\nb".toList, "c".toList] "a\n".toList "bc".toList rfl (by decide)

/-- C3: the `text` field returned by `send_message` is the concatenation,
in arrival order, over all lines of all chunks, of the fragments of lines
with tag `0`: the content stripped of surrounding double quotes, with each
backslash-`n` escape replaced by a newline. -/
theorem c3_uncovr_text_concat (chunks : List (List Char)) :
    uncovrSendText chunks =
      concatChunks ((chunks.flatMap splitNl).filterMap (fun l =>
        match uncovrLineMatch l with
        | some (tag, content) =>
          if tag = ['0'] then some (replaceEscNl (pyStripQuotes content)) else none
        | none => none)) := by
  unfold uncovrSendText
  rw [uncovrSendText_go chunks [], List.nil_append, filterMap_flatMap_split]
  congr 1
  exact List.filterMap_congr (fun l _ => uncovrLineFrag_eq l)

/-- C5 (amended): `parse_stream_line` recognizes every line with a
non-empty alphanumeric tag before the colon and dispatches on it, while
the Uncovr loop's regex recognizes the same line if and only if the tag
consists of digits only; alphabetic tags such as `f:` or `e:` are ignored
there. -/
theorem c5_tag_recognition (tag content : List Char)
    (htag : tag ≠ []) (halnum : ∀ c ∈ tag, c.isAlphanum = true)
    (hnl : '\n' ∉ content) :
    (∃ r, parse_stream_line (tag ++ ':' :: content) = some r ∧ recTag r = some tag) ∧
    (uncovrLineMatch (tag ++ ':' :: content) = some (tag, content) ↔
      ∀ c ∈ tag, c.isDigit = true) := by
  constructor
  · have hmatch := sciraLineMatch_construct htag halnum hnl
    have hline : (tag ++ ':' :: content) ≠ [] := by
      cases tag <;> simp
    have hstrip : pyStrip (tag ++ ':' :: content) ≠ [] := by
      cases tag with
      | nil => exact absurd rfl htag
      | cons c0 t0 =>
        exact strip_ne_nil_of_mem (by simp) (alnum_not_ws (halnum c0 (by simp)))
    unfold parse_stream_line
    cases hj : json_loads content with
    | some d =>
      rw [if_neg (by simp [hline, hstrip]), hmatch]
      dsimp only
      rw [hj]
      exact ⟨.json tag d, rfl, rfl⟩
    | none =>
      rw [if_neg (by simp [hline, hstrip]), hmatch]
      dsimp only
      rw [hj]
      exact ⟨.text tag content, rfl, rfl⟩
  · constructor
    · intro h
      obtain ⟨h1, _⟩ := uncovrLineMatch_some_shape h
      intro c hc
      exact List.mem_takeWhile_imp (h1 ▸ hc)
    · intro hdig
      exact uncovrLineMatch_construct htag hdig hnl

/-- C5 witness: the line `f:x` is dispatched by `parse_stream_line` with
tag `f`, and the Uncovr regex accepts it iff `f` were a digit string. -/
theorem c5_tag_recognition_witness :
    (∃ r, parse_stream_line ("f".toList ++ ':' :: "x".toList) = some r ∧
      recTag r = some "f".toList) ∧
    (uncovrLineMatch ("f".toList ++ ':' :: "x".toList) =
        some ("f".toList, "x".toList) ↔
      ∀ c ∈ "f".toList, c.isDigit = true) :=
  c5_tag_recognition "f".toList "x".toList (by decide) (by decide) (by decide)

/-- C5 counterexample: the claim says both parsers dispatch the alphabetic
tag `f:`; `parse_stream_line` does, but the Uncovr loop body falls through
its digit-only regex and does nothing with the line. -/
theorem c5_counterexample :
    uncovrLineAct "f:x".toList = UAction.unmatched ∧
    parse_stream_line "f:x".toList = some (StreamRec.text "f".toList "x".toList) :=
  ⟨rfl, rfl⟩

/-- C6: the strings handed to `json.loads` by `_parse_sse_response` are
exactly, in order, the stripped lines that start with `data:`, each with
its first six characters removed; lines whose stripped text does not start
with `data:` contribute nothing. -/
theorem c6_zai_sse_selection (text : List Char) :
    zaiJsonInputs text =
      (splitNl text).filterMap (fun l =>
        if "data:".toList.isPrefixOf (pyStrip l) then some ((pyStrip l).drop 6)
        else none) := by
  unfold zaiJsonInputs zaiSseLines
  induction splitNl text with
  | nil => rfl
  | cons l ls ih =>
    by_cases hq : ['d', 'a', 't', 'a', ':'] <+: pyStrip l
    · simp [List.filter_cons, hq, List.filterMap_cons, List.isPrefixOf_iff_prefix]
      simpa [List.map_map, List.isPrefixOf_iff_prefix] using ih
    · simp [List.filter_cons, hq, List.filterMap_cons, List.isPrefixOf_iff_prefix]
      simpa [List.map_map, List.isPrefixOf_iff_prefix] using ih

/-- C9: `parse_stream_line` (total by construction in this model) returns
`None` exactly on empty or whitespace-only input, and every other input
produces a dictionary whose `type` is `unknown`, `json` or `text`. -/
theorem c9_parse_stream_line_total (line : List Char) :
    (parse_stream_line line = none ↔ ∀ c ∈ line, isPyWs c = true) ∧
    (∀ r, parse_stream_line line = some r →
      recTypeStr r ∈ ["unknown".toList, "json".toList, "text".toList]) := by
  constructor
  · constructor
    · intro h
      unfold parse_stream_line at h
      by_cases hcond : (line = [] ∨ pyStrip line = [])
      · rcases hcond with h1 | h1
        · subst h1; simp
        · exact (pyStrip_eq_nil_iff line).mp h1
      · exfalso
        rw [not_or] at hcond
        rw [if_neg (by simp [hcond.1, hcond.2])] at h
        cases hm : sciraLineMatch line with
        | none => rw [hm] at h; exact Option.noConfusion h
        | some p =>
          obtain ⟨tg, ct⟩ := p
          rw [hm] at h
          dsimp only at h
          cases hj : json_loads ct with
          | some d => rw [hj] at h; exact Option.noConfusion h
          | none => rw [hj] at h; exact Option.noConfusion h
    · intro h
      unfold parse_stream_line
      rw [if_pos (by simp [(pyStrip_eq_nil_iff line).mpr h])]
  · intro r hr
    unfold parse_stream_line at hr
    by_cases hcond : (line = [] ∨ pyStrip line = [])
    · rw [if_pos (by rcases hcond with h1 | h1 <;> simp [h1])] at hr
      exact Option.noConfusion hr
    · rw [not_or] at hcond
      rw [if_neg (by simp [hcond.1, hcond.2])] at hr
      cases hm : sciraLineMatch line with
      | none =>
        rw [hm] at hr
        injection hr with h2
        rw [← h2]
        simp [recTypeStr]
      | some p =>
        obtain ⟨tg, ct⟩ := p
        rw [hm] at hr
        dsimp only at hr
        cases hj : json_loads ct with
        | some d =>
          rw [hj] at hr
          injection hr with h2
          rw [← h2]
          simp [recTypeStr]
        | none =>
          rw [hj] at hr
          injection hr with h2
          rw [← h2]
          simp [recTypeStr]

/-- C9 witness: the whitespace-only line returns `None`, and the concrete
parsed line `f:x` has one of the three `type` values. -/
theorem c9_witness :
    parse_stream_line " ".toList = none ∧
    recTypeStr (StreamRec.text "f".toList "x".toList) ∈
      ["unknown".toList, "json".toList, "text".toList] :=
  ⟨(c9_parse_stream_line_total " ".toList).1.mpr (by decide),
   (c9_parse_stream_line_total "f:x".toList).2
     (StreamRec.text "f".toList "x".toList) rfl⟩

/-- C4 (code bug): if every one of the `max_retries + 1 = 4` POST attempts
raises `requests.RequestException`, the loop in `SciraAPI.search` (and the
identical loop in `search_with_history`) exhausts its retries with the
local variable `response` never assigned, and the final
`response.status_code != 200` check raises `UnboundLocalError` instead of
returning `None`. -/
theorem c4_all_attempts_raise_crash :
    sciraSearch (fun _ => HttpAttempt.exn) (fun _ => true) = SearchOutcome.crash := rfl

/-- C7 (amended): when the body is not valid JSON, the marker regex finds
a delimited segment, and the segment parses as a JSON array of objects,
`format_response_json` returns the mapped web results (`link` goes to the
`url` field) and, as `response`, the stripped third component of splitting
the body on `$~~~$` (the text between the second and third markers) when
the split has more than two parts, and `No response text found.`
otherwise. -/
theorem c7_fallback_webmarkers (text seg : List Char) (items : List Json)
    (hjson : json_loads text = none)
    (hre : reSearchMarkers text = some seg)
    (hseg : json_loads seg = some (Json.arr items))
    (hobj : items.all isObjJson = true) :
    format_response_json text =
      FormatResp.ok
        (.str (if (pySplitMarker text).length > 2
               then pyStrip ((pySplitMarker text).getD 2 [])
               else "No response text found.".toList))
        (items.map entryFromMarker) := by
  unfold format_response_json
  rw [hjson]
  unfold formatRespFallback
  rw [hre]
  dsimp only
  rw [hseg]
  dsimp only
  unfold comprehensionOver
  dsimp only
  rw [if_pos hobj]

/-- C7 witness: a concrete invalid-JSON body with one marker-delimited
web-search array and three split parts. -/
theorem c7_fallback_webmarkers_witness :
    format_response_json
        "$~~~$[\x7b\"title\":\"T\",\"link\":\"L\",\"snippet\":\"S\"\x7d]$~~~$ hi ".toList =
      FormatResp.ok (.str "hi".toList)
        [(Json.str "T".toList, Json.str "L".toList, Json.str "S".toList)] := by
  rw [c7_fallback_webmarkers
    "$~~~$[\x7b\"title\":\"T\",\"link\":\"L\",\"snippet\":\"S\"\x7d]$~~~$ hi ".toList
    "[\x7b\"title\":\"T\",\"link\":\"L\",\"snippet\":\"S\"\x7d]".toList
    [Json.obj [("title".toList, Json.str "T".toList),
               ("link".toList, Json.str "L".toList),
               ("snippet".toList, Json.str "S".toList)]]
    rfl rfl rfl rfl]
  rfl

/-- C7 counterexample: on the body `$~~~$[]$~~~$hello$~~~$world` — not
valid JSON, with a delimited segment parsing as an empty array — the
code's `response` is `hello`, the text between the second and third
markers, while the claim demands the stripped text following the second
marker, `hello$~~~$world`. -/
theorem c7_counterexample :
    json_loads "$~~~$[]$~~~$hello$~~~$world".toList = none ∧
    reSearchMarkers "$~~~$[]$~~~$hello$~~~$world".toList = some "[]".toList ∧
    json_loads "[]".toList = some (Json.arr []) ∧
    format_response_json "$~~~$[]$~~~$hello$~~~$world".toList =
      FormatResp.ok (.str "hello".toList) [] ∧
    pyStrip "hello$~~~$world".toList = "hello$~~~$world".toList ∧
    "hello".toList ≠ "hello$~~~$world".toList :=
  ⟨rfl, rfl, rfl, rfl, rfl, by decide⟩
